import Mathlib

/-!
Verification of the parallel-ssh core (psshlib) against its specification.

The Python source under psshlib/ is shallowly embedded below:

* `Manager` scheduling (`manager.py`): pending/running/done task lists,
  `_start_tasks_once`, `reap_tasks`, `finished`, `run` (with the test gate
  of `_split_manager`), `tally_results` for the base `Manager` and for
  `ScpManager`.
* Program exit codes (`cli.py`): `teardown_manager` of `SecureShellCLI`,
  `SecureCopyCLI`, `RemoteSyncCLI` and `SecureReverseCopyCLI`.
* `IOMap` (`manager.py`): fd registration maps, `unregister`, `poll`.
* `Writer` (`output.py`): `open_files` filename computation and the worker
  loop's handling of queue items.

Tasks are represented by natural-number identifiers; exit statuses are
integers (negative = killed by a signal).  Python dicts are association
lists; dict values that are handler callbacks are an abstract type `H`.
-/

namespace Pssh

/-- Exit-status record of one finished task: `(task id, exit status)`. -/
abbrev TaskR := Nat × Int

/-- Scheduler state of `Manager` (manager.py): pending `tasks` (FIFO),
`running`, the `taskcount` counter, the log of `Task.start` calls made
(task id paired with the `taskcount` passed to `start`), and the `done`
list holding `(task id, sequence number)` pairs. -/
structure MState where
  tasks : List Nat
  running : List Nat
  taskcount : Nat
  started : List (Nat × Nat)
  done : List (Nat × Nat)
deriving DecidableEq, Repr

/-- `Manager.finished` (manager.py:270-277): append the task to `done` and
assign `task.sequence = len(self.done)` (1-based position in `done`). -/
def finishedAppend (done : List (Nat × Nat)) (t : Nat) : List (Nat × Nat) :=
  done ++ [(t, done.length + 1)]

/-- Finishing the tasks of `order` in that order against an empty `done`
list: the `done` list of one (sub-)manager whose completion order is
`order`. -/
def finishRun (order : List Nat) : List (Nat × Nat) :=
  order.foldl finishedAppend []

/-- The loop body of `Manager._start_tasks_once` (manager.py:219-223):
`while 0 < len(self.tasks) and len(self.running) < self.limit:` pop the
head of `tasks`, append it to `running`, call `task.start(self.taskcount,
...)` and increment `taskcount`.  `done` is untouched and passed through. -/
def startLoop (limit : Nat) (done : List (Nat × Nat)) :
    List Nat → List Nat → Nat → List (Nat × Nat) → MState
  | [], running, tc, started => ⟨[], running, tc, started, done⟩
  | t :: rest, running, tc, started =>
    if running.length < limit then
      startLoop limit done rest (running ++ [t]) (tc + 1) (started ++ [(t, tc)])
    else
      ⟨t :: rest, running, tc, started, done⟩

/-- `Manager._start_tasks_once` (manager.py:213-223). -/
def startTasksOnce (limit : Nat) (s : MState) : MState :=
  startLoop limit s.done s.tasks s.running s.taskcount s.started

/-- `Manager.reap_tasks` (manager.py:225-239): keep the tasks whose
`task.running()` is still true (given here by the oracle `still`), and pass
every other running task to `Manager.finished` in list order. -/
def reapTasks (still : Nat → Bool) (s : MState) : MState :=
  { s with
    running := s.running.filter still
    done := (s.running.filter (fun t => !(still t))).foldl finishedAppend s.done }

/-- One iteration of the scheduler loop of `Manager.update_tasks` /
`Manager._run` (manager.py:199-211, 114-151): start as many tasks as
allowed, then reap.  Which tasks are still running at this iteration is
given by the oracle. -/
def schedStep (limit : Nat) (s : MState) (still : Nat → Bool) : MState :=
  reapTasks still (startTasksOnce limit s)

/-- The scheduler loop run for one oracle per iteration. -/
def runSteps (limit : Nat) (oracles : List (Nat → Bool)) (s : MState) : MState :=
  oracles.foldl (schedStep limit) s

/-- The manager state right after construction, with `add_task` called once
per pool task (manager.py:31-54, 195-197). -/
def initState (ts : List Nat) : MState :=
  ⟨ts, [], 0, [], []⟩

/-! ### Exit codes (cli.py `teardown_manager`) -/

/-- Python's `min` over a non-empty list (raises on an empty one, hence
`Option`). -/
def pyMin : List Int → Option Int
  | [] => none
  | x :: xs => some (xs.foldl min x)

/-- `SecureShellCLI.teardown_manager` (cli.py:357-370): 3 if
`min(statuses) < 0`, else 4 if some status is 255, else 5 if some status is
non-zero, else 0. -/
def teardownSsh (statuses : List Int) : Option Nat :=
  match pyMin statuses with
  | none => none
  | some m =>
    some (if m < 0 then 3
          else if statuses.any (fun s => decide (s = 255)) then 4
          else if statuses.any (fun s => decide (s ≠ 0)) then 5
          else 0)

/-- `SecureCopyCLI.teardown_manager` (cli.py:440-448): 3 if
`min(statuses) < 0`, else 4 if some status is non-zero, else 0. -/
def teardownScp (statuses : List Int) : Option Nat :=
  match pyMin statuses with
  | none => none
  | some m =>
    some (if m < 0 then 3
          else if statuses.any (fun s => decide (s ≠ 0)) then 4
          else 0)

/-- `RemoteSyncCLI.teardown_manager` (cli.py:596-604): same decision tree
as `SecureCopyCLI`. -/
def teardownRsync (statuses : List Int) : Option Nat :=
  match pyMin statuses with
  | none => none
  | some m =>
    some (if m < 0 then 3
          else if statuses.any (fun s => decide (s ≠ 0)) then 4
          else 0)

/-- `SecureReverseCopyCLI.teardown_manager` (cli.py:694-705): 3 if
`min(statuses) < 0`, else 4 if some status is 255, else 5 if some status is
non-zero, else 0 — the same tree as the SSH variant, not the SCP one. -/
def teardownSlurp (statuses : List Int) : Option Nat :=
  match pyMin statuses with
  | none => none
  | some m =>
    some (if m < 0 then 3
          else if statuses.any (fun s => decide (s = 255)) then 4
          else if statuses.any (fun s => decide (s ≠ 0)) then 5
          else 0)

/-! ### Result classification (manager.py `tally_results`) -/

/-- The four classification buckets of a `Manager`. -/
structure Buckets where
  killed : List TaskR
  ssh_failed : List TaskR
  cmd_failed : List TaskR
  succeeded : List TaskR
deriving DecidableEq, Repr

/-- The empty buckets a freshly constructed `Manager` holds
(manager.py:46-49). -/
def emptyBuckets : Buckets := ⟨[], [], [], []⟩

/-- The loop body of `Manager.tally_results` (manager.py:159-168):
`exitstatus < 0` → killed, elif `== 255` → ssh_failed, elif `!= 0` →
cmd_failed, else succeeded. -/
def tallyStep (b : Buckets) (t : TaskR) : Buckets :=
  if t.2 < 0 then { b with killed := b.killed ++ [t] }
  else if t.2 = 255 then { b with ssh_failed := b.ssh_failed ++ [t] }
  else if t.2 ≠ 0 then { b with cmd_failed := b.cmd_failed ++ [t] }
  else { b with succeeded := b.succeeded ++ [t] }

/-- `Manager.tally_results` run from empty buckets over `done`. -/
def tallyResults (done : List TaskR) : Buckets :=
  done.foldl tallyStep emptyBuckets

/-- The loop body of `ScpManager.tally_results` (manager.py:280-287):
`exitstatus < 0` → killed, elif `!= 0` → ssh_failed, else succeeded. -/
def scpTallyStep (b : Buckets) (t : TaskR) : Buckets :=
  if t.2 < 0 then { b with killed := b.killed ++ [t] }
  else if t.2 ≠ 0 then { b with ssh_failed := b.ssh_failed ++ [t] }
  else { b with succeeded := b.succeeded ++ [t] }

/-- `ScpManager.tally_results` run from empty buckets over `done`. -/
def scpTallyResults (done : List TaskR) : Buckets :=
  done.foldl scpTallyStep emptyBuckets

/-! ### Test gate (`Manager.run` / `Manager._split_manager`) -/

/-- ASCII lower-casing of one character (the effect of Python's
`str.lower` on the answers considered here). -/
def lowerChar (c : Char) : Char :=
  if 65 ≤ c.toNat ∧ c.toNat ≤ 90 then Char.ofNat (c.toNat + 32) else c

/-- Python's `str.lower()`. -/
def pyLower (s : String) : String :=
  ⟨s.data.map lowerChar⟩

/-- The options fields the test gate reads and rewrites
(manager.py:62-66): `opts.test_cases` (an int or `None`) and
`opts.summary`. -/
structure Opts where
  test_cases : Option Nat
  summary : Bool
deriving DecidableEq, Repr

/-- `_split_manager`'s clone of the configuration (manager.py:64-66):
`deepcopy(self.opts)` with `test_cases` and `summary` cleared. -/
def cloneOpts (o : Opts) : Opts :=
  { o with test_cases := none, summary := false }

/-- The gate test of `Manager.run` (manager.py:91):
`if self.test_cases and self.test_cases < len(self.tasks)` — Python
truthiness makes both `None` and `0` fail the first conjunct. -/
def gateTest (o : Opts) (ntasks : Nat) : Bool :=
  match o.test_cases with
  | none => false
  | some k => decide (k ≠ 0) && decide (k < ntasks)

/-- The operator-confirmation loop of `_split_manager` (manager.py:73-78)
over the successive answers: `answer.lower() == 'y'` breaks out (continue,
`some true`), `== 'n'` exits with status 0 (`some false`), anything else
asks again.  `none` models the loop still waiting after all the given
answers. -/
def askLoop : List String → Option Bool
  | [] => none
  | a :: rest =>
    if pyLower a = "y" then some true
    else if pyLower a = "n" then some false
    else askLoop rest

/-- Modelled from the spec: `psshutil.run_manager` (psshutil.py is not
under src/) drives the given manager to completion, i.e. runs the
manager's tasks and fills its `done` list; the order in which the tasks
finish is abstracted as the oracle `order` (spec §4.6 "run it to
completion", §2 data flow).  Each finished task receives its sequence
number via `Manager.finished`, so the resulting `done` list is
`finishRun` of the completion order of the manager's tasks. -/
def runPlain (order : List Nat → List Nat) (tasks : List Nat) : List (Nat × Nat) :=
  finishRun (order tasks)

/-- Outcome of `Manager.run`: a completed run with its `done` list, a
`sys.exit(code)`, or a run still blocked at the confirmation prompt. -/
inductive RunOutcome where
  | finishedRun (done : List (Nat × Nat))
  | exited (code : Nat)
  | blocked
deriving DecidableEq, Repr

/-- `Manager.run` with `_split_manager` inlined (manager.py:62-95).  When
the gate is taken, the first clone holds `tasks[0:k]` and runs to
completion before the prompt; on a "y" answer the second clone holds
`tasks[k:]` and `done` becomes `man1.done + man2.done`; on an "n" answer
the process exits with status 0; otherwise the prompt repeats.  When the
gate is not taken all tasks run normally.  The completion orders of the
two (sub-)runs are abstracted as the oracles `ord1` and `ord2`. -/
def managerRun (o : Opts) (tasks : List Nat) (answers : List String)
    (ord1 ord2 : List Nat → List Nat) : RunOutcome :=
  if gateTest o tasks.length then
    let k := o.test_cases.getD 0
    let man1done := runPlain ord1 (tasks.take k)
    match askLoop answers with
    | some true => .finishedRun (man1done ++ runPlain ord2 (tasks.drop k))
    | some false => .exited 0
    | none => .blocked
  else
    .finishedRun (runPlain ord1 tasks)

/-! ### IOMap (manager.py) -/

/-- The two dictionaries of `IOMap` (manager.py:315-317): `fd → handler`
for reads and for writes, as association lists with unique keys.  The
handler type is abstract. -/
structure IOMapState (H : Type) where
  readmap : List (Nat × H)
  writemap : List (Nat × H)
deriving DecidableEq, Repr

/-- Python dict lookup `m.get(fd)`: the value at the first entry with the
given key. -/
def dlookup {H : Type} (fd : Nat) : List (Nat × H) → Option H
  | [] => none
  | (k, v) :: t => if fd = k then some v else dlookup fd t

/-- Python dict assignment `m[fd] = h`: overwrite the entry when the key
is present, append it otherwise. -/
def dictInsert {H : Type} (fd : Nat) (h : H) (m : List (Nat × H)) : List (Nat × H) :=
  if (dlookup fd m).isSome then
    m.map (fun p => if p.1 = fd then (fd, h) else p)
  else
    m ++ [(fd, h)]

/-- `IOMap.register_read` (manager.py:329-331). -/
def registerRead {H : Type} (fd : Nat) (h : H) (s : IOMapState H) : IOMapState H :=
  { s with readmap := dictInsert fd h s.readmap }

/-- `IOMap.register_write` (manager.py:333-335). -/
def registerWrite {H : Type} (fd : Nat) (h : H) (s : IOMapState H) : IOMapState H :=
  { s with writemap := dictInsert fd h s.writemap }

/-- `IOMap.unregister` (manager.py:337-342): `if fd in self.readmap: del
self.readmap[fd]`, and likewise for the write map. -/
def unregister {H : Type} (fd : Nat) (s : IOMapState H) : IOMapState H :=
  { readmap :=
      if (dlookup fd s.readmap).isSome then
        s.readmap.filter (fun p => p.1 ≠ fd)
      else s.readmap
    writemap :=
      if (dlookup fd s.writemap).isSome then
        s.writemap.filter (fun p => p.1 ≠ fd)
      else s.writemap }

/-- `errno.EINTR` on Linux. -/
def EINTR : Nat := 4

/-- `IOMap.poll` (manager.py:344-364).  The outcome of the underlying
`select.select` call is an oracle: either an errno (`Except.error`) or the
ready read and write fd lists.  The result is either the errno re-raised
or the list of fds whose handlers get dispatched, read fds first, in OS
order.  When both maps are empty `poll` returns before calling `select`. -/
def pollModel {H : Type} (s : IOMapState H)
    (selectResult : Except Nat (List Nat × List Nat)) : Except Nat (List Nat) :=
  match s.readmap, s.writemap with
  | [], [] => .ok []
  | _, _ =>
    match selectResult with
    | .error e => if e = EINTR then .ok [] else .error e
    | .ok (rlist, wlist) => .ok (rlist ++ wlist)

/-! ### Writer (output.py) -/

/-- Parameters of an opened output file: the Python `open` mode string,
the `buffering` argument, and whether close-on-exec is set on the
descriptor. -/
structure OpenParams where
  mode : String
  buffering : Nat
  cloexec : Bool
deriving DecidableEq, Repr

/-- Whether a Python `open` mode string opens for appending (preserving
existing contents). -/
def modeAppends (m : String) : Bool := m.data.contains 'a'

/-- Whether a Python `open` mode string truncates an existing file. -/
def modeTruncates (m : String) : Bool := m.data.contains 'w'

/-- Whether a Python `open` mode string is binary. -/
def modeBinary (m : String) : Bool := m.data.contains 'b'

/-- Python's `open(filename, mode, buffering)`: close-on-exec is not set
by `open` itself (Python 2). -/
def pyOpen (mode : String) (buffering : Nat) : OpenParams :=
  ⟨mode, buffering, false⟩

/-- Modelled from the spec: `psshutil.set_cloexec` (psshutil.py is not
under src/) sets the close-on-exec flag on the given open file (spec §4.2
"sets the close-on-exec flag"). -/
def set_cloexec (p : OpenParams) : OpenParams :=
  { p with cloexec := true }

/-- An item of the Writer queue (output.py:27-29, 42-56, 75-91): an
`(filename, OPEN)` pair, an `(filename, bytes)` write, an
`(filename, EOF)` close, or the `(ABORT, None)` sentinel. -/
inductive WItem where
  | openItem (filename : String)
  | dataItem (filename : String) (data : List Nat)
  | eofItem (filename : String)
  | abortItem
deriving DecidableEq, Repr

/-- An observable action of the Writer worker on the filesystem. -/
inductive WEffect where
  | opened (filename : String) (p : OpenParams)
  | wrote (filename : String) (data : List Nat)
  | closed (filename : String)
deriving DecidableEq, Repr

/-- One iteration of `Writer.run` (output.py:42-56): the ABORT sentinel
returns from the thread (`none`); an OPEN item performs
`open(filename, 'wb', buffering=1)` followed by `set_cloexec` and records
the file handle; EOF closes; any other data is written. -/
def writerHandleItem (files : List (String × OpenParams)) (item : WItem) :
    Option (List (String × OpenParams) × List WEffect) :=
  match item with
  | .abortItem => none
  | .openItem f =>
    let p := set_cloexec (pyOpen "wb" 1)
    some ((f, p) :: files.filter (fun q => q.1 ≠ f), [.opened f p])
  | .dataItem f d => some (files, [.wrote f d])
  | .eofItem f => some (files, [.closed f])

/-- `os.path.join` for two components (posixpath): an absolute second
component replaces the first; otherwise a separator is inserted unless the
first is empty or already ends with one. -/
def pathJoin (a b : String) : String :=
  if b.data.head? = some '/' then b
  else if a.data = [] || a.data.getLast? = some '/' then a ++ b
  else a ++ "/" ++ b

/-- `Writer.open_files` (output.py:58-79) acting on the `host_counts`
dictionary (here a function `String → Nat` defaulting to 0, Python's
`host_counts.get(host, 0)`) and enqueuing OPEN items.  Returns the
`(outfile, errfile)` pair, the updated counts, and the enqueued items in
order. -/
def openFiles (outdir errdir : Option String) (counts : String → Nat) (host : String) :
    (Option String × Option String) × (String → Nat) × List WItem :=
  if outdir.isSome || errdir.isSome then
    let count := counts host
    let counts1 := fun h => if h = host then count + 1 else counts h
    let filename := if count ≠ 0 then host ++ "." ++ toString count else host
    let outPart : Option String × List WItem :=
      match outdir with
      | some d => (some (pathJoin d filename), [WItem.openItem (pathJoin d filename)])
      | none => (none, [])
    let errPart : Option String × List WItem :=
      match errdir with
      | some d => (some (pathJoin d filename), [WItem.openItem (pathJoin d filename)])
      | none => (none, [])
    ((outPart.1, errPart.1), counts1, outPart.2 ++ errPart.2)
  else
    ((none, none), counts, [])

/-! ## Helper lemmas -/

theorem dlookup_filter_self {H : Type} (fd : Nat) (m : List (Nat × H)) :
    dlookup fd (m.filter (fun p => !decide (p.1 = fd))) = none := by
  induction m with
  | nil => rfl
  | cons p t ih =>
    obtain ⟨k, v⟩ := p
    by_cases h : k = fd
    · simpa [List.filter_cons, h] using ih
    · simpa [List.filter_cons, h, dlookup, Ne.symm h] using ih

theorem dlookup_filter_other {H : Type} (fd fd2 : Nat) (hne : fd2 ≠ fd) (m : List (Nat × H)) :
    dlookup fd2 (m.filter (fun p => !decide (p.1 = fd))) = dlookup fd2 m := by
  induction m with
  | nil => rfl
  | cons p t ih =>
    obtain ⟨k, v⟩ := p
    simp only [decide_not] at ih
    by_cases h : k = fd
    · have h2 : fd2 ≠ k := h ▸ hne
      simp [List.filter_cons, h, dlookup, h2, hne, ih]
    · by_cases h2 : fd2 = k
      · simp [List.filter_cons, h, dlookup, h2]
      · simp [List.filter_cons, h, dlookup, h2, ih]

theorem dlookup_none_filter {H : Type} (fd : Nat) (m : List (Nat × H))
    (h : dlookup fd m = none) : m.filter (fun p => !decide (p.1 = fd)) = m := by
  induction m with
  | nil => rfl
  | cons p t ih =>
    obtain ⟨k, v⟩ := p
    simp only [decide_not] at ih
    by_cases hk : fd = k
    · simp [dlookup, hk] at h
    · simp only [dlookup, if_neg hk] at h
      simp [List.filter_cons, Ne.symm hk, ih h]

theorem foldl_min_le_init (xs : List Int) : ∀ a : Int, xs.foldl min a ≤ a := by
  induction xs with
  | nil => intro a; simp
  | cons x t ih =>
    intro a
    calc t.foldl min (min a x) ≤ min a x := ih (min a x)
      _ ≤ a := min_le_left a x

theorem foldl_min_le_mem (xs : List Int) : ∀ (a y : Int), y ∈ xs → xs.foldl min a ≤ y := by
  induction xs with
  | nil => intro a y hy; cases hy
  | cons x t ih =>
    intro a y hy
    rcases List.mem_cons.mp hy with h | h
    · subst h
      calc t.foldl min (min a y) ≤ min a y := foldl_min_le_init t (min a y)
        _ ≤ y := min_le_right a y
    · exact ih (min a x) y h

theorem foldl_min_choice (xs : List Int) : ∀ a : Int, xs.foldl min a = a ∨ xs.foldl min a ∈ xs := by
  induction xs with
  | nil => intro a; left; rfl
  | cons x t ih =>
    intro a
    rcases ih (min a x) with h | h
    · rcases min_cases a x with ⟨hm, _⟩ | ⟨hm, _⟩
      · left
        rw [List.foldl_cons, h, hm]
      · right
        rw [List.foldl_cons, h, hm]
        exact List.mem_cons_self x t
    · right
      exact List.mem_cons_of_mem x h

theorem foldl_min_neg_iff (x : Int) (xs : List Int) :
    xs.foldl min x < 0 ↔ ∃ s ∈ x :: xs, s < 0 := by
  constructor
  · intro h
    rcases foldl_min_choice xs x with he | he
    · exact ⟨x, List.mem_cons_self x xs, he ▸ h⟩
    · exact ⟨xs.foldl min x, List.mem_cons_of_mem x he, h⟩
  · rintro ⟨s, hs, hneg⟩
    rcases List.mem_cons.mp hs with h | h
    · exact lt_of_le_of_lt (h ▸ foldl_min_le_init xs x) hneg
    · exact lt_of_le_of_lt (foldl_min_le_mem xs x s h) hneg

theorem tally_fold_eq (done : List TaskR) : ∀ acc : Buckets,
    done.foldl tallyStep acc =
      ⟨acc.killed ++ done.filter (fun t => decide (t.2 < 0)),
       acc.ssh_failed ++ done.filter (fun t => !decide (t.2 < 0) && decide (t.2 = 255)),
       acc.cmd_failed ++
         done.filter (fun t => !decide (t.2 < 0) && !decide (t.2 = 255) && decide (t.2 ≠ 0)),
       acc.succeeded ++
         done.filter (fun t => !decide (t.2 < 0) && !decide (t.2 = 255) && !decide (t.2 ≠ 0))⟩ := by
  induction done with
  | nil => intro acc; simp
  | cons t d ih =>
    intro acc
    rw [List.foldl_cons, ih]
    by_cases h1 : t.2 < 0
    · simp [tallyStep, h1, List.filter_cons, List.append_assoc]
    · by_cases h2 : t.2 = 255
      · simp [tallyStep, h1, h2, List.filter_cons, List.append_assoc]
      · by_cases h3 : t.2 = 0
        · simp [tallyStep, h1, h2, h3, List.filter_cons, List.append_assoc]
        · simp [tallyStep, h1, h2, h3, List.filter_cons, List.append_assoc]

theorem scp_tally_fold_eq (done : List TaskR) : ∀ acc : Buckets,
    done.foldl scpTallyStep acc =
      ⟨acc.killed ++ done.filter (fun t => decide (t.2 < 0)),
       acc.ssh_failed ++ done.filter (fun t => !decide (t.2 < 0) && decide (t.2 ≠ 0)),
       acc.cmd_failed,
       acc.succeeded ++ done.filter (fun t => !decide (t.2 < 0) && !decide (t.2 ≠ 0))⟩ := by
  induction done with
  | nil => intro acc; simp
  | cons t d ih =>
    intro acc
    rw [List.foldl_cons, ih]
    by_cases h1 : t.2 < 0
    · simp [scpTallyStep, h1, List.filter_cons, List.append_assoc]
    · by_cases h2 : t.2 = 0
      · simp [scpTallyStep, h1, h2, List.filter_cons, List.append_assoc]
      · simp [scpTallyStep, h1, h2, List.filter_cons, List.append_assoc]

theorem perm_cons_deep1 {α : Type} (a : α) (f1 post d : List α)
    (h : List.Perm (f1 ++ post) d) : List.Perm (f1 ++ (a :: post)) (a :: d) :=
  List.perm_middle.trans (h.cons a)

theorem perm_cons_deep2 {α : Type} (a : α) (f1 f2 post d : List α)
    (h : List.Perm (f1 ++ (f2 ++ post)) d) :
    List.Perm (f1 ++ (f2 ++ (a :: post))) (a :: d) :=
  ((List.Perm.append_left f1 List.perm_middle).trans List.perm_middle).trans (h.cons a)

theorem perm_cons_deep3 {α : Type} (a : α) (f1 f2 f3 post d : List α)
    (h : List.Perm (f1 ++ (f2 ++ (f3 ++ post))) d) :
    List.Perm (f1 ++ (f2 ++ (f3 ++ (a :: post)))) (a :: d) := by
  have s2 : List.Perm (f2 ++ (f3 ++ (a :: post))) (a :: (f2 ++ (f3 ++ post))) :=
    (List.Perm.append_left f2 List.perm_middle).trans List.perm_middle
  exact ((List.Perm.append_left f1 s2).trans List.perm_middle).trans (h.cons a)

theorem tally_filter_perm (done : List TaskR) :
    List.Perm
      (done.filter (fun t => decide (t.2 < 0)) ++
        (done.filter (fun t => !decide (t.2 < 0) && decide (t.2 = 255)) ++
          (done.filter
              (fun t => !decide (t.2 < 0) && !decide (t.2 = 255) && decide (t.2 ≠ 0)) ++
            done.filter
              (fun t => !decide (t.2 < 0) && !decide (t.2 = 255) && !decide (t.2 ≠ 0)))))
      done := by
  induction done with
  | nil => simp
  | cons t d ih =>
    simp only [List.filter_cons]
    by_cases h1 : t.2 < 0
    · simp only [show decide (t.2 < 0) = true from by simp [h1], Bool.not_true,
        Bool.false_and, if_false, if_true, List.cons_append]
      exact ih.cons t
    · by_cases h2 : t.2 = 255
      · simp only [show decide (t.2 < 0) = false from by simp [h1],
          show decide (t.2 = 255) = true from by simp [h2], Bool.not_false, Bool.not_true,
          Bool.true_and, Bool.false_and, Bool.and_false, Bool.true_and, if_false, if_true,
          List.cons_append]
        exact perm_cons_deep1 t _ _ d ih
      · by_cases h3 : t.2 = 0
        · simp only [show decide (t.2 < 0) = false from by simp [h1],
            show decide (t.2 = 255) = false from by simp [h2],
            show decide (t.2 ≠ 0) = false from by simp [h3], Bool.not_false, Bool.true_and,
            Bool.and_false, Bool.and_true, Bool.not_true, Bool.false_and, if_false, if_true]
          exact perm_cons_deep3 t _ _ _ _ d ih
        · simp only [show decide (t.2 < 0) = false from by simp [h1],
            show decide (t.2 = 255) = false from by simp [h2],
            show decide (t.2 ≠ 0) = true from by simp [h3], Bool.not_false, Bool.true_and,
            Bool.and_false, Bool.and_true, Bool.not_true, Bool.false_and, if_false, if_true,
            List.cons_append]
          exact perm_cons_deep2 t _ _ _ d ih

theorem scp_tally_filter_perm (done : List TaskR) :
    List.Perm
      (done.filter (fun t => decide (t.2 < 0)) ++
        (done.filter (fun t => !decide (t.2 < 0) && decide (t.2 ≠ 0)) ++
          done.filter (fun t => !decide (t.2 < 0) && !decide (t.2 ≠ 0))))
      done := by
  induction done with
  | nil => simp
  | cons t d ih =>
    simp only [List.filter_cons]
    by_cases h1 : t.2 < 0
    · simp only [show decide (t.2 < 0) = true from by simp [h1], Bool.not_true,
        Bool.false_and, if_false, if_true, List.cons_append]
      exact ih.cons t
    · by_cases h2 : t.2 = 0
      · simp only [show decide (t.2 < 0) = false from by simp [h1],
          show decide (t.2 ≠ 0) = false from by simp [h2], Bool.not_false, Bool.true_and,
          Bool.and_false, Bool.and_true, if_false, if_true]
        exact perm_cons_deep2 t _ _ _ d ih
      · simp only [show decide (t.2 < 0) = false from by simp [h1],
          show decide (t.2 ≠ 0) = true from by simp [h2], Bool.not_false, Bool.true_and,
          if_false, if_true, List.cons_append]
        exact perm_cons_deep1 t _ _ d ih

theorem startLoop_done (limit : Nat) (done : List (Nat × Nat)) :
    ∀ (tasks running : List Nat) (tc : Nat) (started : List (Nat × Nat)),
      (startLoop limit done tasks running tc started).done = done := by
  intro tasks
  induction tasks with
  | nil => intro r tc st; rfl
  | cons t rest ih =>
    intro r tc st
    rw [startLoop]
    by_cases h : r.length < limit
    · rw [if_pos h]
      exact ih (r ++ [t]) (tc + 1) (st ++ [(t, tc)])
    · rw [if_neg h]

theorem foldl_finishedAppend_eq (l : List Nat) :
    ∀ acc : List (Nat × Nat),
      l.foldl finishedAppend acc = acc ++ l.zip (List.range' (acc.length + 1) l.length) := by
  induction l with
  | nil => intro acc; simp
  | cons t rest ih =>
    intro acc
    rw [List.foldl_cons, ih]
    simp only [finishedAppend]
    rw [List.append_assoc]
    congr 1
    have hlen : (acc ++ [(t, acc.length + 1)]).length = acc.length + 1 := by simp
    rw [hlen, List.length_cons, List.range'_succ, List.zip_cons_cons,
      List.singleton_append]

theorem foldl_finishedAppend_seq (l : List Nat) (acc : List (Nat × Nat))
    (h : acc.map Prod.snd = List.range' 1 acc.length) :
    (l.foldl finishedAppend acc).map Prod.snd =
      List.range' 1 (l.foldl finishedAppend acc).length := by
  rw [foldl_finishedAppend_eq]
  have hz : (l.zip (List.range' (acc.length + 1) l.length)).map Prod.snd =
      List.range' (acc.length + 1) l.length := by
    apply List.map_snd_zip
    simp
  have hlen : (acc ++ l.zip (List.range' (acc.length + 1) l.length)).length =
      acc.length + l.length := by
    simp
  rw [List.map_append, h, hz, hlen]
  have h2 := List.range'_append 1 acc.length l.length 1
  rw [one_mul, Nat.add_comm 1 acc.length, Nat.add_comm l.length acc.length] at h2
  exact h2

theorem runSteps_done_seq (limit : Nat) (oracles : List (Nat → Bool)) :
    ∀ s : MState, s.done.map Prod.snd = List.range' 1 s.done.length →
      (runSteps limit oracles s).done.map Prod.snd =
        List.range' 1 (runSteps limit oracles s).done.length := by
  induction oracles with
  | nil => intro s h; exact h
  | cons o os ih =>
    intro s h
    show (runSteps limit os (schedStep limit s o)).done.map Prod.snd = _
    apply ih
    show (reapTasks o (startTasksOnce limit s)).done.map Prod.snd = _
    unfold reapTasks
    apply foldl_finishedAppend_seq
    show (startTasksOnce limit s).done.map Prod.snd = _
    rw [startTasksOnce, startLoop_done]
    exact h

theorem startLoop_eq (limit : Nat) (done : List (Nat × Nat)) :
    ∀ (tasks running : List Nat) (tc : Nat) (started : List (Nat × Nat)),
      startLoop limit done tasks running tc started =
        ⟨tasks.drop (min (limit - running.length) tasks.length),
         running ++ tasks.take (min (limit - running.length) tasks.length),
         tc + min (limit - running.length) tasks.length,
         started ++ (tasks.take (min (limit - running.length) tasks.length)).zip
           (List.range' tc (min (limit - running.length) tasks.length)),
         done⟩ := by
  intro tasks
  induction tasks with
  | nil =>
    intro r tc st
    simp [startLoop]
  | cons t rest ih =>
    intro r tc st
    rw [startLoop]
    by_cases h : r.length < limit
    · rw [if_pos h, ih]
      have h1 : limit - r.length = (limit - (r ++ [t]).length) + 1 := by
        simp only [List.length_append, List.length_cons, List.length_nil]
        omega
      have hk : min (limit - r.length) (t :: rest).length
          = min (limit - (r ++ [t]).length) rest.length + 1 := by
        rw [h1, List.length_cons]
        exact Nat.succ_min_succ _ _
      rw [hk]
      simp only [List.drop_succ_cons, List.take_succ_cons, List.range'_succ,
        List.zip_cons_cons, MState.mk.injEq]
      refine ⟨trivial, ?_, by omega, ?_, trivial⟩
      · simp
      · simp
    · rw [if_neg h]
      have h0 : limit - r.length = 0 := by omega
      rw [h0]
      simp

theorem startTasksOnce_eq (limit : Nat) (s : MState) :
    startTasksOnce limit s =
      ⟨s.tasks.drop (min (limit - s.running.length) s.tasks.length),
       s.running ++ s.tasks.take (min (limit - s.running.length) s.tasks.length),
       s.taskcount + min (limit - s.running.length) s.tasks.length,
       s.started ++ (s.tasks.take (min (limit - s.running.length) s.tasks.length)).zip
         (List.range' s.taskcount (min (limit - s.running.length) s.tasks.length)),
       s.done⟩ :=
  startLoop_eq limit s.done s.tasks s.running s.taskcount s.started

theorem startTasksOnce_running_le (limit : Nat) (s : MState)
    (h : s.running.length ≤ limit) :
    (startTasksOnce limit s).running.length ≤ limit := by
  rw [startTasksOnce_eq]
  simp only [List.length_append, List.length_take]
  omega

theorem startTasksOnce_post (limit : Nat) (s : MState) (h : s.running.length ≤ limit) :
    (startTasksOnce limit s).tasks = [] ∨
      (startTasksOnce limit s).running.length = limit := by
  rw [startTasksOnce_eq]
  by_cases hc : s.tasks.length ≤ limit - s.running.length
  · left
    simp [Nat.min_eq_right hc]
  · right
    have hle : limit - s.running.length ≤ s.tasks.length := le_of_not_le hc
    simp only [List.length_append, List.length_take]
    omega

theorem startTasksOnce_started_inv (limit : Nat) (s : MState) :
    (startTasksOnce limit s).started.map Prod.fst ++ (startTasksOnce limit s).tasks =
      s.started.map Prod.fst ++ s.tasks := by
  rw [startTasksOnce_eq]
  simp only [List.map_append]
  have hz : ((s.tasks.take (min (limit - s.running.length) s.tasks.length)).zip
      (List.range' s.taskcount (min (limit - s.running.length) s.tasks.length))).map
        Prod.fst =
      s.tasks.take (min (limit - s.running.length) s.tasks.length) := by
    apply List.map_fst_zip
    simp only [List.length_take, List.length_range']
    omega
  rw [hz, List.append_assoc, List.take_append_drop]

theorem runSteps_running_le (limit : Nat) (oracles : List (Nat → Bool)) :
    ∀ s : MState, s.running.length ≤ limit →
      (runSteps limit oracles s).running.length ≤ limit := by
  induction oracles with
  | nil => intro s h; exact h
  | cons o os ih =>
    intro s h
    show (runSteps limit os (schedStep limit s o)).running.length ≤ limit
    apply ih
    show ((startTasksOnce limit s).running.filter o).length ≤ limit
    calc ((startTasksOnce limit s).running.filter o).length
        ≤ (startTasksOnce limit s).running.length := List.length_filter_le _ _
      _ ≤ limit := startTasksOnce_running_le limit s h

theorem runSteps_started_inv (limit : Nat) (oracles : List (Nat → Bool)) :
    ∀ s : MState,
      (runSteps limit oracles s).started.map Prod.fst ++ (runSteps limit oracles s).tasks =
        s.started.map Prod.fst ++ s.tasks := by
  induction oracles with
  | nil => intro s; rfl
  | cons o os ih =>
    intro s
    show (runSteps limit os (schedStep limit s o)).started.map Prod.fst ++
        (runSteps limit os (schedStep limit s o)).tasks = _
    rw [ih (schedStep limit s o)]
    show (startTasksOnce limit s).started.map Prod.fst ++
        (startTasksOnce limit s).tasks = _
    exact startTasksOnce_started_inv limit s

/-! ## Claims -/

/-- C10: `IOMap.unregister` is total and idempotent: after `unregister fd`
the fd is absent from both maps; unregistering an fd registered in neither
map leaves both maps unchanged (and raises no error — the function is
total); `unregister fd` twice equals `unregister fd` once; all other
entries of both maps are unchanged. -/
theorem unregister_total_idempotent {H : Type} (fd : Nat) (s : IOMapState H) :
    dlookup fd (unregister fd s).readmap = none ∧
    dlookup fd (unregister fd s).writemap = none ∧
    (∀ fd2, fd2 ≠ fd →
      dlookup fd2 (unregister fd s).readmap = dlookup fd2 s.readmap ∧
      dlookup fd2 (unregister fd s).writemap = dlookup fd2 s.writemap) ∧
    (dlookup fd s.readmap = none → dlookup fd s.writemap = none →
      unregister fd s = s) ∧
    unregister fd (unregister fd s) = unregister fd s := by
  obtain ⟨r, w⟩ := s
  refine ⟨?_, ?_, ?_, ?_, ?_⟩
  · by_cases h : (dlookup fd r).isSome
    · simp [unregister, h, dlookup_filter_self]
    · simp only [Option.not_isSome_iff_eq_none] at h
      simp [unregister, h]
  · by_cases h : (dlookup fd w).isSome
    · simp [unregister, h, dlookup_filter_self]
    · simp only [Option.not_isSome_iff_eq_none] at h
      simp [unregister, h]
  · intro fd2 hne
    constructor
    · by_cases h : (dlookup fd r).isSome
      · simp [unregister, h, dlookup_filter_other fd fd2 hne]
      · simp [unregister, h]
    · by_cases h : (dlookup fd w).isSome
      · simp [unregister, h, dlookup_filter_other fd fd2 hne]
      · simp [unregister, h]
  · intro hr hw
    simp [unregister, hr, hw]
  · by_cases hr : (dlookup fd r).isSome
    · by_cases hw : (dlookup fd w).isSome
      · simp [unregister, hr, hw, dlookup_filter_self]
      · simp only [Option.not_isSome_iff_eq_none] at hw
        simp [unregister, hr, hw, dlookup_filter_self]
    · simp only [Option.not_isSome_iff_eq_none] at hr
      by_cases hw : (dlookup fd w).isSome
      · simp [unregister, hr, hw, dlookup_filter_self]
      · simp only [Option.not_isSome_iff_eq_none] at hw
        simp [unregister, hr, hw]

/-- C10 witness at a concrete map. -/
theorem unregister_total_idempotent_witness :
    (1 : Nat) ≠ 2 ∧
    dlookup 1 (unregister 2 (⟨[(2, 5), (1, 6)], [(2, 7)]⟩ : IOMapState Nat)).readmap =
      dlookup 1 (⟨[(2, 5), (1, 6)], [(2, 7)]⟩ : IOMapState Nat).readmap :=
  ⟨by decide,
    ((unregister_total_idempotent 2 (⟨[(2, 5), (1, 6)], [(2, 7)]⟩ : IOMapState Nat)).2.2.1
      1 (by decide)).1⟩

/-- C1: with admission cap `limit` (= `par`), `_start_tasks_once` dequeues
from the head of the pending list, appending to `running` and starting
each dequeued task once with a fresh `taskcount`, only while the pending
list is non-empty and `|running| < limit`; afterwards `|running| ≤ limit`
still holds and either the pending list is empty or `|running| = limit`.
Across a whole scheduler run over a pool `ts`, `|running| ≤ limit` at
every step boundary, the started tasks followed by the remaining pending
tasks are exactly `ts` (each added task is started exactly once), and once
the pending list is empty the number of spawned children equals `|ts|`. -/
theorem admission_cap (limit : Nat) (s : MState) (ts : List Nat)
    (oracles : List (Nat → Bool)) (h : s.running.length ≤ limit) :
    ((startTasksOnce limit s).running.length ≤ limit ∧
      ((startTasksOnce limit s).tasks = [] ∨
        (startTasksOnce limit s).running.length = limit) ∧
      (startTasksOnce limit s).tasks =
        s.tasks.drop (min (limit - s.running.length) s.tasks.length) ∧
      (startTasksOnce limit s).running =
        s.running ++ s.tasks.take (min (limit - s.running.length) s.tasks.length) ∧
      (startTasksOnce limit s).started =
        s.started ++
          (s.tasks.take (min (limit - s.running.length) s.tasks.length)).zip
            (List.range' s.taskcount (min (limit - s.running.length) s.tasks.length))) ∧
    ((runSteps limit oracles (initState ts)).running.length ≤ limit ∧
      (runSteps limit oracles (initState ts)).started.map Prod.fst ++
        (runSteps limit oracles (initState ts)).tasks = ts ∧
      ((runSteps limit oracles (initState ts)).tasks = [] →
        (runSteps limit oracles (initState ts)).started.length = ts.length)) := by
  have hinv : (runSteps limit oracles (initState ts)).started.map Prod.fst ++
      (runSteps limit oracles (initState ts)).tasks = ts := by
    have h0 := runSteps_started_inv limit oracles (initState ts)
    simpa [initState] using h0
  refine ⟨⟨startTasksOnce_running_le limit s h, startTasksOnce_post limit s h,
    ?_, ?_, ?_⟩, ?_, hinv, ?_⟩
  · rw [startTasksOnce_eq]
  · rw [startTasksOnce_eq]
  · rw [startTasksOnce_eq]
  · exact runSteps_running_le limit oracles (initState ts) (by simp [initState])
  · intro hempty
    rw [hempty, List.append_nil] at hinv
    calc (runSteps limit oracles (initState ts)).started.length
        = ((runSteps limit oracles (initState ts)).started.map Prod.fst).length := by
          rw [List.length_map]
      _ = ts.length := by rw [hinv]

/-- C1 witness: cap 2 over a three-task pool, one scheduler step. -/
theorem admission_cap_witness :
    (⟨[1, 2, 3], [], 0, [], []⟩ : MState).running.length ≤ 2 ∧
    (startTasksOnce 2 (⟨[1, 2, 3], [], 0, [], []⟩ : MState)).running.length ≤ 2 ∧
    (runSteps 2 [fun _ => false] (initState [1, 2, 3])).started.map Prod.fst ++
      (runSteps 2 [fun _ => false] (initState [1, 2, 3])).tasks = [1, 2, 3] :=
  ⟨by decide,
    (admission_cap 2 ⟨[1, 2, 3], [], 0, [], []⟩ [1, 2, 3] [fun _ => false]
      (by decide)).1.1,
    (admission_cap 2 ⟨[1, 2, 3], [], 0, [], []⟩ [1, 2, 3] [fun _ => false]
      (by decide)).2.2.1⟩

/-- C4 counterexample: in the test-gate path with two tasks split 1/1,
`done` is the concatenation of the two sub-managers' done lists and the
sequence numbers are `[1, 1]` — not a permutation of `1..2` — because each
sub-manager assigns sequence numbers against its own `done` list. -/
theorem sequence_numbers_counterexample :
    managerRun ⟨some 1, false⟩ [10, 20] ["y"] id id =
      RunOutcome.finishedRun [(10, 1), (20, 1)] ∧
    ([(10, 1), (20, 1)].map Prod.snd = [1, 1] ∧
      [(10, 1), (20, 1)].map Prod.snd ≠ [1, 2] ∧
      [(10, 1), (20, 1)].map Prod.snd ≠ [2, 1]) := by
  decide

/-- C4 amended: a task's sequence number is assigned when it is marked
finished and equals its 1-based position in its own manager's `done` list,
so within any single (sub-)manager the sequence numbers of `done` are
exactly `1..N` in finishing order — in particular for every scheduler run
(`runSteps`) — and in the test-gate path the concatenated `done` list
carries sequences `1..k` followed by `1..(N−k)` (restarting at 1), not a
permutation of `1..N`. -/
theorem sequence_numbers_assignment (order o1 o2 ts : List Nat) (limit : Nat)
    (oracles : List (Nat → Bool)) :
    (finishRun order).map Prod.fst = order ∧
    (finishRun order).map Prod.snd = List.range' 1 order.length ∧
    (finishRun o1 ++ finishRun o2).map Prod.snd =
      List.range' 1 o1.length ++ List.range' 1 o2.length ∧
    (runSteps limit oracles (initState ts)).done.map Prod.snd =
      List.range' 1 (runSteps limit oracles (initState ts)).done.length := by
  have hfr : ∀ l : List Nat, finishRun l = l.zip (List.range' 1 l.length) := by
    intro l
    rw [finishRun, foldl_finishedAppend_eq]
    simp
  have hsnd : ∀ l : List Nat, (finishRun l).map Prod.snd = List.range' 1 l.length := by
    intro l
    rw [hfr]
    apply List.map_snd_zip
    simp
  refine ⟨?_, hsnd order, ?_, ?_⟩
  · rw [hfr]
    apply List.map_fst_zip
    simp
  · rw [List.map_append, hsnd o1, hsnd o2]
  · apply runSteps_done_seq
    simp [initState]

/-- C6 counterexample: at the test-gate prompt, an answer that is neither
"y" nor "n" does not exit the program — the prompt repeats, and a later
"y" continues the run — refuting the claim that any answer other than "y"
exits immediately. -/
theorem test_gate_counterexample :
    managerRun ⟨some 1, false⟩ [10, 20] ["maybe", "y"] id id =
      RunOutcome.finishedRun [(10, 1), (20, 1)] ∧
    managerRun ⟨some 1, false⟩ [10, 20] ["maybe", "y"] id id ≠ RunOutcome.exited 0 := by
  decide

/-- C6 amended: when `test_cases = k` with `0 < k < |tasks|`, `run` clones
the configuration with `test_cases` disabled, runs the first k tasks in
the first clone, and prompts the operator; on an answer whose lowercase
form is "y" it runs a second clone holding the remaining tasks and `done`
is the first clone's done list followed by the second's; on lowercase "n"
it exits immediately with status 0; on any other answer it asks again
(it does not exit).  When `test_cases` is absent, 0, or `≥ |tasks|`, all
tasks run normally with no gate. -/
theorem test_gate_behavior (o : Opts) (tasks : List Nat) (answers : List String)
    (ord1 ord2 : List Nat → List Nat) (k : Nat) (a : String) (rest : List String) :
    (o.test_cases = none →
      managerRun o tasks answers ord1 ord2 = RunOutcome.finishedRun (runPlain ord1 tasks)) ∧
    (o.test_cases = some 0 →
      managerRun o tasks answers ord1 ord2 = RunOutcome.finishedRun (runPlain ord1 tasks)) ∧
    (o.test_cases = some k → tasks.length ≤ k →
      managerRun o tasks answers ord1 ord2 = RunOutcome.finishedRun (runPlain ord1 tasks)) ∧
    (o.test_cases = some k → k ≠ 0 → k < tasks.length → askLoop answers = some true →
      managerRun o tasks answers ord1 ord2 =
        RunOutcome.finishedRun
          (runPlain ord1 (tasks.take k) ++ runPlain ord2 (tasks.drop k))) ∧
    (o.test_cases = some k → k ≠ 0 → k < tasks.length → askLoop answers = some false →
      managerRun o tasks answers ord1 ord2 = RunOutcome.exited 0) ∧
    (cloneOpts o).test_cases = none ∧
    gateTest (cloneOpts o) tasks.length = false ∧
    (pyLower a = "y" → askLoop (a :: rest) = some true) ∧
    (pyLower a = "n" → askLoop (a :: rest) = some false) ∧
    (pyLower a ≠ "y" → pyLower a ≠ "n" → askLoop (a :: rest) = askLoop rest) := by
  refine ⟨?_, ?_, ?_, ?_, ?_, rfl, rfl, ?_, ?_, ?_⟩
  · intro h
    simp [managerRun, gateTest, h]
  · intro h
    simp [managerRun, gateTest, h]
  · intro h hle
    simp [managerRun, gateTest, h, Nat.not_lt.mpr hle]
  · intro h hk hlt ha
    simp [managerRun, gateTest, h, hk, hlt, ha]
  · intro h hk hlt ha
    simp [managerRun, gateTest, h, hk, hlt, ha]
  · intro h
    simp [askLoop, h]
  · intro h
    simp [askLoop, h]
  · intro h1 h2
    simp [askLoop, h1, h2]

/-- C6 amended witness: with `test_cases = 1` over two tasks and answer
"y", the run finishes with the two sub-runs' done lists concatenated. -/
theorem test_gate_behavior_witness :
    ((⟨some 1, false⟩ : Opts).test_cases = some 1 ∧ (1 : Nat) ≠ 0 ∧
      1 < ([10, 20] : List Nat).length ∧ askLoop ["y"] = some true) ∧
    managerRun ⟨some 1, false⟩ [10, 20] ["y"] id id =
      RunOutcome.finishedRun
        (runPlain id ([10, 20].take 1) ++ runPlain id ([10, 20].drop 1)) :=
  ⟨⟨rfl, by decide, by decide, by decide⟩,
    (test_gate_behavior ⟨some 1, false⟩ [10, 20] ["y"] id id 1 "" []).2.2.2.1
      rfl (by decide) (by decide) (by decide)⟩

/-- C5: starting from empty buckets, `tally_results` places every done
task in exactly one bucket, partitioning `done`: for the base/SSH variant,
killed iff the exit status is negative, ssh_failed iff it is 255,
cmd_failed iff it is non-zero, non-negative and not 255, succeeded iff it
is 0; for the SCP/rsync variant, killed iff negative, ssh_failed iff
non-zero and non-negative (no cmd_failed bucket is ever filled), succeeded
iff 0.  The buckets concatenated are a permutation of `done`. -/
theorem tally_partitions_done (done : List TaskR) :
    (tallyResults done).killed = done.filter (fun t => decide (t.2 < 0)) ∧
    (tallyResults done).ssh_failed = done.filter (fun t => decide (t.2 = 255)) ∧
    (tallyResults done).cmd_failed =
      done.filter (fun t => decide (0 ≤ t.2 ∧ t.2 ≠ 255 ∧ t.2 ≠ 0)) ∧
    (tallyResults done).succeeded = done.filter (fun t => decide (t.2 = 0)) ∧
    List.Perm
      ((tallyResults done).killed ++ ((tallyResults done).ssh_failed ++
        ((tallyResults done).cmd_failed ++ (tallyResults done).succeeded))) done ∧
    (scpTallyResults done).killed = done.filter (fun t => decide (t.2 < 0)) ∧
    (scpTallyResults done).ssh_failed =
      done.filter (fun t => decide (0 ≤ t.2 ∧ t.2 ≠ 0)) ∧
    (scpTallyResults done).cmd_failed = [] ∧
    (scpTallyResults done).succeeded = done.filter (fun t => decide (t.2 = 0)) ∧
    List.Perm
      ((scpTallyResults done).killed ++ ((scpTallyResults done).ssh_failed ++
        (scpTallyResults done).succeeded)) done := by
  have hb : tallyResults done =
      ⟨done.filter (fun t => decide (t.2 < 0)),
       done.filter (fun t => !decide (t.2 < 0) && decide (t.2 = 255)),
       done.filter (fun t => !decide (t.2 < 0) && !decide (t.2 = 255) && decide (t.2 ≠ 0)),
       done.filter
         (fun t => !decide (t.2 < 0) && !decide (t.2 = 255) && !decide (t.2 ≠ 0))⟩ := by
    have h := tally_fold_eq done emptyBuckets
    simpa [emptyBuckets] using h
  have hs : scpTallyResults done =
      ⟨done.filter (fun t => decide (t.2 < 0)),
       done.filter (fun t => !decide (t.2 < 0) && decide (t.2 ≠ 0)),
       [],
       done.filter (fun t => !decide (t.2 < 0) && !decide (t.2 ≠ 0))⟩ := by
    have h := scp_tally_fold_eq done emptyBuckets
    simpa [emptyBuckets] using h
  have e1 : done.filter (fun t => !decide (t.2 < 0) && decide (t.2 = 255)) =
      done.filter (fun t => decide (t.2 = 255)) := by
    apply List.filter_congr
    intro t _
    by_cases h1 : t.2 < 0 <;> by_cases h2 : t.2 = 255 <;> simp [h1, h2]
  have e2 : done.filter
        (fun t => !decide (t.2 < 0) && !decide (t.2 = 255) && decide (t.2 ≠ 0)) =
      done.filter (fun t => decide (0 ≤ t.2 ∧ t.2 ≠ 255 ∧ t.2 ≠ 0)) := by
    apply List.filter_congr
    intro t _
    by_cases h1 : t.2 < 0 <;> by_cases h2 : t.2 = 255 <;> by_cases h3 : t.2 = 0 <;>
      simp [h1, h2, h3] <;> omega
  have e3 : done.filter
        (fun t => !decide (t.2 < 0) && !decide (t.2 = 255) && !decide (t.2 ≠ 0)) =
      done.filter (fun t => decide (t.2 = 0)) := by
    apply List.filter_congr
    intro t _
    by_cases h1 : t.2 < 0 <;> by_cases h2 : t.2 = 255 <;> by_cases h3 : t.2 = 0 <;>
      simp [h1, h2, h3]
  have e4 : done.filter (fun t => !decide (t.2 < 0) && decide (t.2 ≠ 0)) =
      done.filter (fun t => decide (0 ≤ t.2 ∧ t.2 ≠ 0)) := by
    apply List.filter_congr
    intro t _
    by_cases h1 : t.2 < 0 <;> by_cases h2 : t.2 = 0 <;> simp [h1, h2] <;> omega
  have e5 : done.filter (fun t => !decide (t.2 < 0) && !decide (t.2 ≠ 0)) =
      done.filter (fun t => decide (t.2 = 0)) := by
    apply List.filter_congr
    intro t _
    by_cases h1 : t.2 < 0 <;> by_cases h2 : t.2 = 0 <;> simp [h1, h2]
  refine ⟨?_, ?_, ?_, ?_, ?_, ?_, ?_, ?_, ?_, ?_⟩
  · rw [hb]
  · rw [hb]
    exact e1
  · rw [hb]
    exact e2
  · rw [hb]
    exact e3
  · rw [hb]
    exact tally_filter_perm done
  · rw [hs]
  · rw [hs]
    exact e4
  · rw [hs]
  · rw [hs]
    exact e5
  · rw [hs]
    exact scp_tally_filter_perm done

/-- C8: `Writer.open_files` names files deterministically: the first call
for a host uses the bare host label, the k-th subsequent call (k ≥ 1) uses
`host.k`; the filename is prefixed with outdir for the stdout file and
errdir for the stderr file, one OPEN item is enqueued per configured
directory; with neither directory configured it returns `(none, none)`,
changes nothing and enqueues nothing; each call increments the host's
counter and leaves other hosts' counters unchanged. -/
theorem open_files_naming (outdir errdir : Option String) (counts : String → Nat)
    (host : String) (k : Nat) :
    (counts host = 0 →
      (openFiles outdir errdir counts host).1 =
        (outdir.map (fun d => pathJoin d host), errdir.map (fun d => pathJoin d host)) ∧
      (openFiles outdir errdir counts host).2.2 =
        outdir.toList.map (fun d => WItem.openItem (pathJoin d host)) ++
          errdir.toList.map (fun d => WItem.openItem (pathJoin d host))) ∧
    (counts host = k → k ≠ 0 →
      (openFiles outdir errdir counts host).1 =
        (outdir.map (fun d => pathJoin d (host ++ "." ++ toString k)),
          errdir.map (fun d => pathJoin d (host ++ "." ++ toString k))) ∧
      (openFiles outdir errdir counts host).2.2 =
        outdir.toList.map
            (fun d => WItem.openItem (pathJoin d (host ++ "." ++ toString k))) ++
          errdir.toList.map
            (fun d => WItem.openItem (pathJoin d (host ++ "." ++ toString k)))) ∧
    (outdir = none → errdir = none →
      openFiles outdir errdir counts host = ((none, none), counts, [])) ∧
    (outdir ≠ none ∨ errdir ≠ none →
      (openFiles outdir errdir counts host).2.1 host = counts host + 1 ∧
      ∀ h2, h2 ≠ host → (openFiles outdir errdir counts host).2.1 h2 = counts h2) := by
  refine ⟨?_, ?_, ?_, ?_⟩
  · intro h
    cases outdir <;> cases errdir <;> simp [openFiles, h]
  · intro h hk
    cases outdir <;> cases errdir <;> simp [openFiles, h, hk]
  · intro h1 h2
    subst h1
    subst h2
    rfl
  · intro h
    cases outdir with
    | none =>
      cases errdir with
      | none =>
        rcases h with h | h <;> exact absurd rfl h
      | some d =>
        constructor
        · simp [openFiles]
        · intro h2 hne
          simp [openFiles, hne]
    | some d =>
      cases errdir <;>
        (constructor
         · simp [openFiles]
         · intro h2 hne
           simp [openFiles, hne])

/-- C8 witness: second call for a host with both directories configured. -/
theorem open_files_naming_witness :
    ((fun _ => (1 : Nat)) "h" = 1 ∧ (1 : Nat) ≠ 0) ∧
    (openFiles (some "o") (some "e") (fun _ => 1) "h").1 =
      ((some "o").map (fun d => pathJoin d ("h" ++ "." ++ toString 1)),
        (some "e").map (fun d => pathJoin d ("h" ++ "." ++ toString 1))) :=
  ⟨⟨rfl, by decide⟩,
    ((open_files_naming (some "o") (some "e") (fun _ => 1) "h" 1).2.1 rfl (by decide)).1⟩

/-- C9 counterexample: the Writer worker consumes an OPEN item by calling
`open(filename, 'wb', buffering=1)` — a truncating write mode, not an
append mode — so pre-existing file contents are NOT preserved, refuting
the claim's "append" part (line buffering and close-on-exec do hold). -/
theorem writer_open_mode_counterexample :
    writerHandleItem [] (WItem.openItem "host") =
      some ([("host", ⟨"wb", 1, true⟩)], [WEffect.opened "host" ⟨"wb", 1, true⟩]) ∧
    modeAppends "wb" = false ∧ modeTruncates "wb" = true := by
  refine ⟨rfl, by decide, by decide⟩

/-- C9 amended: consuming an OPEN item opens the file with Python mode
"wb" — binary, truncating, not appending — with `buffering=1` (line
buffering) and then sets close-on-exec on the descriptor, so the
descriptor is not inherited by subsequently spawned children while any
pre-existing contents are discarded; ABORT ends the worker, data items are
written and EOF closes. -/
theorem writer_open_mode (files : List (String × OpenParams)) (f : String)
    (d : List Nat) :
    writerHandleItem files (WItem.openItem f) =
      some ((f, ⟨"wb", 1, true⟩) :: files.filter (fun q => q.1 ≠ f),
        [WEffect.opened f ⟨"wb", 1, true⟩]) ∧
    modeBinary "wb" = true ∧
    modeTruncates "wb" = true ∧
    modeAppends "wb" = false ∧
    (pyOpen "wb" 1).buffering = 1 ∧
    (pyOpen "wb" 1).cloexec = false ∧
    (set_cloexec (pyOpen "wb" 1)).cloexec = true ∧
    writerHandleItem files WItem.abortItem = none ∧
    writerHandleItem files (WItem.dataItem f d) = some (files, [WEffect.wrote f d]) ∧
    writerHandleItem files (WItem.eofItem f) = some (files, [WEffect.closed f]) := by
  refine ⟨rfl, by decide, by decide, by decide, rfl, rfl, rfl, rfl, rfl, rfl⟩

/-- C7: `IOMap.poll` treats an `EINTR` failure of the `select` call as a
no-op: it returns normally with no handler dispatched; a `select` failure
with any other errno propagates (when the maps are not both empty, which
is when `select` is reached at all). -/
theorem poll_eintr_noop {H : Type} (s : IOMapState H) :
    pollModel s (Except.error EINTR) = Except.ok [] ∧
    (∀ e : Nat, e ≠ EINTR → s.readmap ≠ [] →
      pollModel s (Except.error e) = Except.error e) ∧
    (∀ e : Nat, e ≠ EINTR → s.writemap ≠ [] →
      pollModel s (Except.error e) = Except.error e) := by
  obtain ⟨r, w⟩ := s
  refine ⟨?_, ?_, ?_⟩
  · match r, w with
    | [], [] => rfl
    | [], p :: t => simp [pollModel]
    | p :: t, _ => simp [pollModel]
  · intro e hne hr
    match r, w with
    | [], [] => exact absurd rfl hr
    | [], p :: t => simp [pollModel, hne]
    | p :: t, _ => simp [pollModel, hne]
  · intro e hne hw
    match r, w with
    | [], [] => exact absurd rfl hw
    | [], p :: t => simp [pollModel, hne]
    | p :: t, _ => simp [pollModel, hne]

/-- C2: for the SSH variant, over the non-empty list of exit statuses of
the done tasks, the program exit code is 0 if every status is 0; 3 if any
status is negative; 4 if none is negative and some status is 255; and 5 if
none is negative, none is 255 and some status is non-zero. -/
theorem ssh_exitcode_cases (statuses : List Int) (h : statuses ≠ []) :
    ((∀ s ∈ statuses, s = 0) → teardownSsh statuses = some 0) ∧
    ((∃ s ∈ statuses, s < 0) → teardownSsh statuses = some 3) ∧
    ((∀ s ∈ statuses, 0 ≤ s) → (∃ s ∈ statuses, s = 255) →
      teardownSsh statuses = some 4) ∧
    ((∀ s ∈ statuses, 0 ≤ s) → (∀ s ∈ statuses, s ≠ 255) → (∃ s ∈ statuses, s ≠ 0) →
      teardownSsh statuses = some 5) := by
  match statuses with
  | [] => exact absurd rfl h
  | x :: xs =>
    refine ⟨?_, ?_, ?_, ?_⟩
    · intro hall
      have hmin : ¬ (xs.foldl min x < 0) := by
        rcases foldl_min_choice xs x with he | he
        · rw [he, hall x (List.mem_cons_self x xs)]
          decide
        · rw [hall _ (List.mem_cons_of_mem x he)]
          decide
      have h255 : (x :: xs).any (fun s => decide (s = 255)) = false := by
        rw [List.any_eq_false]
        intro s hs
        simp [hall s hs]
      have hnz : (x :: xs).any (fun s => decide (s ≠ 0)) = false := by
        rw [List.any_eq_false]
        intro s hs
        simp [hall s hs]
      have hunf : teardownSsh (x :: xs) =
          some (if xs.foldl min x < 0 then 3
                else if (x :: xs).any (fun s => decide (s = 255)) then 4
                else if (x :: xs).any (fun s => decide (s ≠ 0)) then 5
                else 0) := rfl
      rw [hunf, if_neg hmin, h255, hnz]
      simp
    · intro hex
      have hlt : xs.foldl min x < 0 := (foldl_min_neg_iff x xs).mpr hex
      have hunf : teardownSsh (x :: xs) =
          some (if xs.foldl min x < 0 then 3
                else if (x :: xs).any (fun s => decide (s = 255)) then 4
                else if (x :: xs).any (fun s => decide (s ≠ 0)) then 5
                else 0) := rfl
      rw [hunf, if_pos hlt]
    · intro hnn hex
      have hmin : ¬ (xs.foldl min x < 0) := by
        rcases foldl_min_choice xs x with he | he
        · rw [he]
          exact not_lt.mpr (hnn x (List.mem_cons_self x xs))
        · exact not_lt.mpr (hnn _ (List.mem_cons_of_mem x he))
      have h255 : (x :: xs).any (fun s => decide (s = 255)) = true := by
        rw [List.any_eq_true]
        obtain ⟨s, hs, hv⟩ := hex
        exact ⟨s, hs, by simp [hv]⟩
      have hunf : teardownSsh (x :: xs) =
          some (if xs.foldl min x < 0 then 3
                else if (x :: xs).any (fun s => decide (s = 255)) then 4
                else if (x :: xs).any (fun s => decide (s ≠ 0)) then 5
                else 0) := rfl
      rw [hunf, if_neg hmin, h255]
      simp
    · intro hnn hno255 hex
      have hmin : ¬ (xs.foldl min x < 0) := by
        rcases foldl_min_choice xs x with he | he
        · rw [he]
          exact not_lt.mpr (hnn x (List.mem_cons_self x xs))
        · exact not_lt.mpr (hnn _ (List.mem_cons_of_mem x he))
      have h255 : (x :: xs).any (fun s => decide (s = 255)) = false := by
        rw [List.any_eq_false]
        intro s hs
        simp [hno255 s hs]
      have hnz : (x :: xs).any (fun s => decide (s ≠ 0)) = true := by
        rw [List.any_eq_true]
        obtain ⟨s, hs, hv⟩ := hex
        exact ⟨s, hs, by simp [hv]⟩
      have hunf : teardownSsh (x :: xs) =
          some (if xs.foldl min x < 0 then 3
                else if (x :: xs).any (fun s => decide (s = 255)) then 4
                else if (x :: xs).any (fun s => decide (s ≠ 0)) then 5
                else 0) := rfl
      rw [hunf, if_neg hmin, h255, hnz]
      simp

/-- C2 witness: a run with a command failure exits with code 5. -/
theorem ssh_exitcode_cases_witness :
    ([0, 7] : List Int) ≠ [] ∧ teardownSsh [0, 7] = some 5 :=
  ⟨by decide,
    (ssh_exitcode_cases [0, 7] (by decide)).2.2.2 (by decide) (by decide)
      ⟨7, by decide, by decide⟩⟩

/-- C3 counterexample: pslurp (`SecureReverseCopyCLI`, built on
`ScpManager`) exits with code 5 — not 4 — when a task fails with a plain
non-zero status and none is killed, refuting the claim that all
SCP/rsync-based CLIs collapse command failures into exit code 4 and never
return 5. -/
theorem scp_variants_never5_counterexample :
    teardownSlurp [1] = some 5 ∧ teardownSlurp [1] ≠ some 4 := by
  constructor
  · rfl
  · decide

/-- C3 amended: pscp (`SecureCopyCLI`) and prsync (`RemoteSyncCLI`) never
exit with code 5 — with no killed task, any non-zero status yields exit
code 4 — but pslurp (`SecureReverseCopyCLI`) uses the SSH decision tree
and exits with code 5 when no task is killed, no status is 255 and some
status is non-zero. -/
theorem scp_variants_exitcodes (statuses : List Int) (h : statuses ≠ []) :
    (∀ c, teardownScp statuses = some c → c ≠ 5) ∧
    (∀ c, teardownRsync statuses = some c → c ≠ 5) ∧
    ((∀ s ∈ statuses, 0 ≤ s) → (∃ s ∈ statuses, s ≠ 0) →
      teardownScp statuses = some 4 ∧ teardownRsync statuses = some 4) ∧
    ((∀ s ∈ statuses, 0 ≤ s) → (∀ s ∈ statuses, s ≠ 255) → (∃ s ∈ statuses, s ≠ 0) →
      teardownSlurp statuses = some 5) := by
  match statuses with
  | [] => exact absurd rfl h
  | x :: xs =>
    refine ⟨?_, ?_, ?_, ?_⟩
    · intro c hc
      have hunf : teardownScp (x :: xs) =
          some (if xs.foldl min x < 0 then 3
                else if (x :: xs).any (fun s => decide (s ≠ 0)) then 4
                else 0) := rfl
      rw [hunf] at hc
      by_cases h1 : xs.foldl min x < 0
      · rw [if_pos h1] at hc
        injection hc with hc
        omega
      · rw [if_neg h1] at hc
        by_cases h2 : ((x :: xs).any (fun s => decide (s ≠ 0))) = true
        · rw [if_pos h2] at hc
          injection hc with hc
          omega
        · rw [if_neg h2] at hc
          injection hc with hc
          omega
    · intro c hc
      have hunf : teardownRsync (x :: xs) =
          some (if xs.foldl min x < 0 then 3
                else if (x :: xs).any (fun s => decide (s ≠ 0)) then 4
                else 0) := rfl
      rw [hunf] at hc
      by_cases h1 : xs.foldl min x < 0
      · rw [if_pos h1] at hc
        injection hc with hc
        omega
      · rw [if_neg h1] at hc
        by_cases h2 : ((x :: xs).any (fun s => decide (s ≠ 0))) = true
        · rw [if_pos h2] at hc
          injection hc with hc
          omega
        · rw [if_neg h2] at hc
          injection hc with hc
          omega
    · intro hnn hex
      have hmin : ¬ (xs.foldl min x < 0) := by
        rcases foldl_min_choice xs x with he | he
        · rw [he]
          exact not_lt.mpr (hnn x (List.mem_cons_self x xs))
        · exact not_lt.mpr (hnn _ (List.mem_cons_of_mem x he))
      have hnz : (x :: xs).any (fun s => decide (s ≠ 0)) = true := by
        rw [List.any_eq_true]
        obtain ⟨s, hs, hv⟩ := hex
        exact ⟨s, hs, by simp [hv]⟩
      constructor
      · have hunf : teardownScp (x :: xs) =
            some (if xs.foldl min x < 0 then 3
                  else if (x :: xs).any (fun s => decide (s ≠ 0)) then 4
                  else 0) := rfl
        rw [hunf, if_neg hmin, hnz]
        simp
      · have hunf : teardownRsync (x :: xs) =
            some (if xs.foldl min x < 0 then 3
                  else if (x :: xs).any (fun s => decide (s ≠ 0)) then 4
                  else 0) := rfl
        rw [hunf, if_neg hmin, hnz]
        simp
    · intro hnn hno255 hex
      have hmin : ¬ (xs.foldl min x < 0) := by
        rcases foldl_min_choice xs x with he | he
        · rw [he]
          exact not_lt.mpr (hnn x (List.mem_cons_self x xs))
        · exact not_lt.mpr (hnn _ (List.mem_cons_of_mem x he))
      have h255 : (x :: xs).any (fun s => decide (s = 255)) = false := by
        rw [List.any_eq_false]
        intro s hs
        simp [hno255 s hs]
      have hnz : (x :: xs).any (fun s => decide (s ≠ 0)) = true := by
        rw [List.any_eq_true]
        obtain ⟨s, hs, hv⟩ := hex
        exact ⟨s, hs, by simp [hv]⟩
      have hunf : teardownSlurp (x :: xs) =
          some (if xs.foldl min x < 0 then 3
                else if (x :: xs).any (fun s => decide (s = 255)) then 4
                else if (x :: xs).any (fun s => decide (s ≠ 0)) then 5
                else 0) := rfl
      rw [hunf, if_neg hmin, h255, hnz]
      simp

/-- C3 amended witness: a plain failure gives 4 for pscp and prsync, 5 for
pslurp. -/
theorem scp_variants_exitcodes_witness :
    ([1] : List Int) ≠ [] ∧
    (teardownScp [1] = some 4 ∧ teardownRsync [1] = some 4) :=
  ⟨by decide,
    (scp_variants_exitcodes [1] (by decide)).2.2.1 (by decide) ⟨1, by decide, by decide⟩⟩

/-- C7 witness at a concrete map and errno. -/
theorem poll_eintr_noop_witness :
    ((9 : Nat) ≠ EINTR ∧ ([(1, 0)] : List (Nat × Nat)) ≠ []) ∧
    pollModel (⟨[(1, 0)], []⟩ : IOMapState Nat) (Except.error 9) = Except.error 9 :=
  ⟨⟨by decide, by decide⟩,
    (poll_eintr_noop (⟨[(1, 0)], []⟩ : IOMapState Nat)).2.1 9 (by decide) (by decide)⟩

end Pssh
